import Mathlib

set_option autoImplicit false

/-!
Shallow embedding of the fhir-canonical-manager package scanner and search
slice.  The filesystem is modelled as a total map from path strings to file
states; JavaScript exceptions are modelled with `Except`, and the mutable
cache is threaded explicitly.  File contents are modelled post-`JSON.parse`:
a file either fails to parse (`junk`), parses to the JSON value `null`
(`nullVal`, on which any property access throws a `TypeError`), parses to a
manifest-shaped value, or parses to an index-manifest-shaped value.
-/

/-- A package manifest as obtained from `package.json` by `JSON.parse`: in
JavaScript a property access on a non-null value may yield `undefined`, so
every field is optional. -/
structure PackageJson where
  name : Option String
  version : Option String
  canonical : Option String
  fhirVersions : Option (List String)
  deriving DecidableEq

/-- Identity of one package release, `{name, version}` as copied from the
manifest (either component may have been `undefined`). -/
structure PackageId where
  name : Option String
  version : Option String
  deriving DecidableEq

/-- Per-package record stored in the cache, built by `scanPackage`. -/
structure PackageInfo where
  id : PackageId
  path : String
  canonical : Option String
  fhirVersions : Option (List String)
  deriving DecidableEq

/-- One resource descriptor as listed in a hidden `.index.json` file; all
fields optional, copied verbatim. -/
structure IndexDescriptor where
  url : Option String
  type : Option String
  kind : Option String
  version : Option String
  deriving DecidableEq

/-- One cache entry: the descriptor fields plus a back-reference to the
owning package's record. -/
structure IndexEntry where
  url : Option String
  type : Option String
  kind : Option String
  version : Option String
  package : Option PackageInfo
  deriving DecidableEq

/-- The shared cache: `packages` is a JavaScript-object-like association
list keyed by package name (a key position is kept on overwrite), and
`entries` is the ingestion-ordered sequence of index entries. -/
structure Cache where
  packages : List (Option String × PackageInfo)
  entries : List IndexEntry
  deriving DecidableEq

def emptyCache : Cache := { packages := [], entries := [] }

/-- Content of a file after `JSON.parse`, abstracted to the shapes the
scanner distinguishes.  `junk` is unparsable text (`JSON.parse` throws);
`nullVal` is the parsable text `null` (parse succeeds, but any subsequent
property access throws a `TypeError`); `manifest` is any other JSON value
read through manifest-field accesses; `indexFile` is a well-formed index
manifest. -/
inductive ParsedFile where
  | junk
  | nullVal
  | manifest (pj : PackageJson)
  | indexFile (descs : List IndexDescriptor)
  deriving DecidableEq

/-- State of one path in the modelled filesystem. -/
inductive FileState where
  | absent
  | denied
  | dir
  | file (content : ParsedFile)
  deriving DecidableEq

abbrev FS := String → FileState

/-- Node's `path.join` restricted to the two-argument uses in the source:
joining with a separator, with the empty-left-component special case. -/
def pjoin (a b : String) : String :=
  if a = "" then b else a ++ "/" ++ b

/-- `fs.readFile`: succeeds exactly on a readable regular file; a missing
path, a permission error and a directory all raise. -/
def readFile (fs : FS) (p : String) : Except Unit ParsedFile :=
  match fs p with
  | .file c => .ok c
  | _ => .error ()

/-- `fs.access`: succeeds on any accessible path (file or directory),
raises on a missing path or a permission error. -/
def access (fs : FS) (p : String) : Except Unit Unit :=
  match fs p with
  | .file _ => .ok ()
  | .dir => .ok ()
  | _ => .error ()

/-- State classifier used to specify the probes: a path is accessible iff
it holds a regular file or a directory. -/
def isAccessible : FileState → Bool
  | .file _ => true
  | .dir => true
  | _ => false

/-- Modelled from the spec: `fileExists` from `src/fs` (its implementation
file is not part of the provided sources, only its tests).  Per §4.1 it
never throws and any access error, including permission denial, is treated
as "does not exist"; it is the `fs.access`-with-catch idiom the tests
exercise. -/
def fileExists (fs : FS) (p : String) : Bool :=
  match access fs p with
  | .ok _ => true
  | .error _ => false

/-- Modelled from the spec: `isFhirPackage` (`isIndexedPackage`) from
`src/fs` (implementation not in the provided sources, only its tests).
Per §4.1 it is true iff a hidden `.index.json` file exists directly under
the given path. -/
def isFhirPackage (fs : FS) (p : String) : Bool :=
  fileExists fs (pjoin p ".index.json")

/-- Reading the manifest fields off a parse result: `JSON.parse` throwing
on `junk`, the `TypeError` of a property access on `null`, and the verbatim
field reads otherwise; a non-manifest JSON value yields `undefined` for
every field. -/
def manifestFields : ParsedFile → Except Unit PackageJson
  | .junk => .error ()
  | .nullVal => .error ()
  | .manifest pj => .ok pj
  | .indexFile _ => .ok ⟨none, none, none, none⟩

/-- The `PackageInfo` literal built by `scanPackage` (package.ts lines
21–26). -/
def mkInfo (packagePath : String) (pj : PackageJson) : PackageInfo :=
  { id := { name := pj.name, version := pj.version }
    path := packagePath
    canonical := pj.canonical
    fhirVersions := pj.fhirVersions }

/-- JavaScript-object assignment `m[k] = v` on an association list: an
existing key keeps its position and gets the new value, a new key is
appended. -/
def setPkg : List (Option String × PackageInfo) → Option String → PackageInfo →
    List (Option String × PackageInfo)
  | [], n, i => [(n, i)]
  | (k, v) :: rest, n, i =>
      if k = n then (k, i) :: rest else (k, v) :: setPkg rest n i

/-- JavaScript-object lookup `m[k]` on the association list. -/
def getPkg : List (Option String × PackageInfo) → Option String → Option PackageInfo
  | [], _ => none
  | (k, v) :: rest, n => if k = n then some v else getPkg rest n

/-- `cache.packages[packageJson.name] = packageInfo` (package.ts line 27). -/
def insertPkg (c : Cache) (n : Option String) (i : PackageInfo) : Cache :=
  { c with packages := setPkg c.packages n i }

/-- Modelled from the spec: the entry constructed by the Index Processor
(`processIndex` from `scanner/processor`, not among the provided sources).
Per §4.3 the descriptor's url/type/kind/version fields are copied verbatim
and the package back-reference is resolved by name from `cache.packages`. -/
def mkEntry (c : Cache) (pj : PackageJson) (d : IndexDescriptor) : IndexEntry :=
  { url := d.url
    type := d.type
    kind := d.kind
    version := d.version
    package := getPkg c.packages pj.name }

/-- Modelled from the spec: the Index Processor (`processIndex` from
`scanner/processor`, whose source file is not provided).  Per §4.3 it reads
the hidden `.index.json` file of the directory, and appends one entry per
descriptor in file order; per §4.2 step 5 a malformed or unreadable index
manifest raises, to be swallowed at `scanPackage`'s top level.  The error
payload is the cache as mutated at the raise point (the parse failure
precedes every append, so it is the input cache). -/
def processIndexE (fs : FS) (dirPath : String) (pj : PackageJson) (c : Cache) :
    Except Cache Cache :=
  match readFile fs (pjoin dirPath ".index.json") with
  | .error _ => .error c
  | .ok content =>
    match content with
    | .indexFile descs => .ok { c with entries := c.entries ++ descs.map (mkEntry c pj) }
    | _ => .error c

/-- Resuming after a JavaScript `try`/`catch` whose handler is empty: the
result is the cache as mutated at the raise point. -/
def outCache : Except Cache Cache → Cache
  | .ok c => c
  | .error c => c

/-- The tail of `scanPackage` after the `PackageInfo` insertion
(package.ts lines 29–34), with the enclosing catch applied: process the
package root's index, then the `examples` sub-directory's index when its
hidden `.index.json` exists. -/
def indexPhase (fs : FS) (packagePath : String) (pj : PackageJson) (c1 : Cache) : Cache :=
  match processIndexE fs packagePath pj c1 with
  | .error c => c
  | .ok c2 =>
    if fileExists fs (pjoin (pjoin packagePath "examples") ".index.json") then
      outCache (processIndexE fs (pjoin packagePath "examples") pj c2)
    else c2

/-- `scanPackage` (package.ts lines 12–38): read and parse
`packagePath/package.json`; on success register the `PackageInfo` and run
the index phase; every raise anywhere in the body is swallowed by the
empty top-level catch, leaving the cache as mutated so far. -/
def scanPackage (fs : FS) (packagePath : String) (c : Cache) : Cache :=
  match readFile fs (pjoin packagePath "package.json") with
  | .error _ => c
  | .ok content =>
    match manifestFields content with
    | .error _ => c
    | .ok pj => indexPhase fs packagePath pj (insertPkg c pj.name (mkInfo packagePath pj))

/-- The tail of the `try` body after the insertion, without the catch:
errors propagate, carrying the cache state at the raise point. -/
def indexPhaseE (fs : FS) (packagePath : String) (pj : PackageJson) (c1 : Cache) :
    Except Cache Cache :=
  match processIndexE fs packagePath pj c1 with
  | .error c => .error c
  | .ok c2 =>
    if fileExists fs (pjoin (pjoin packagePath "examples") ".index.json") then
      processIndexE fs (pjoin packagePath "examples") pj c2
    else .ok c2

/-- The `try` body of `scanPackage` (package.ts lines 17–34) without the
catch: errors propagate to the caller, carrying the cache state at the
raise point. -/
def tryScanBody (fs : FS) (packagePath : String) (c : Cache) : Except Cache Cache :=
  match readFile fs (pjoin packagePath "package.json") with
  | .error _ => .error c
  | .ok content =>
    match manifestFields content with
    | .error _ => .error c
    | .ok pj => indexPhaseE fs packagePath pj (insertPkg c pj.name (mkInfo packagePath pj))

/-- Ghost-instrumented index phase: identical to `indexPhase`, with a flag
recording whether the Index Processor was invoked on the `examples`
sub-directory. -/
def indexPhaseT (fs : FS) (packagePath : String) (pj : PackageJson) (c1 : Cache) :
    Cache × Bool :=
  match processIndexE fs packagePath pj c1 with
  | .error c => (c, false)
  | .ok c2 =>
    if fileExists fs (pjoin (pjoin packagePath "examples") ".index.json") then
      (outCache (processIndexE fs (pjoin packagePath "examples") pj c2), true)
    else (c2, false)

/-- Ghost-instrumented `scanPackage`: same result cache, plus the flag of
`indexPhaseT`. -/
def scanPackageT (fs : FS) (packagePath : String) (c : Cache) : Cache × Bool :=
  match readFile fs (pjoin packagePath "package.json") with
  | .error _ => (c, false)
  | .ok content =>
    match manifestFields content with
    | .error _ => (c, false)
    | .ok pj => indexPhaseT fs packagePath pj (insertPkg c pj.name (mkInfo packagePath pj))

/-- Search criteria per §4.4: independently-optional structured fields;
there is no `url` criterion. -/
structure SearchCriteria where
  type : Option String
  kind : Option String
  version : Option String
  package : Option PackageInfo
  deriving DecidableEq

/-- Modelled from the spec: the match predicate of the Canonical Cache's
`search` (§4.4; the cache/search source file is not provided).  An entry
matches iff every supplied criterion holds: `type`, `kind` and `version`
by exact string equality with the entry's own fields, `package` by name
equality with the entry's package back-reference. -/
def entryMatches (crit : SearchCriteria) (e : IndexEntry) : Bool :=
  (match crit.type with
   | none => true
   | some t => e.type = some t) &&
  (match crit.kind with
   | none => true
   | some k => e.kind = some k) &&
  (match crit.version with
   | none => true
   | some v => e.version = some v) &&
  (match crit.package with
   | none => true
   | some p =>
     match e.package with
     | none => false
     | some q => q.id.name = p.id.name)

/-- Modelled from the spec: `search` of the Canonical Cache (§4.4; source
file not provided): keep, in ingestion order, exactly the entries matching
every supplied criterion. -/
def search (c : Cache) (crit : SearchCriteria) : List IndexEntry :=
  c.entries.filter (entryMatches crit)

/-- JavaScript truthiness of an optional string option: `undefined` and
the empty string are falsy, so `if (options.x)` guards skip both. -/
def truthy : Option String → Option String
  | none => none
  | some s => if s = "" then none else some s

/-- ASCII lowering of one character, as `String.prototype.toLowerCase`
acts on the ASCII range used by canonical URLs. -/
def lowerChar (c : Char) : Char :=
  if 65 ≤ c.toNat ∧ c.toNat ≤ 90 then Char.ofNat (c.toNat + 32) else c

/-- `toLowerCase` over a whole string. -/
def lowerStr (s : String) : String :=
  String.mk (s.toList.map lowerChar)

/-- Character-list version of "starts with". -/
def leadsWith : List Char → List Char → Bool
  | [], _ => true
  | _ :: _, [] => false
  | n :: ns, h :: hs => n = h && leadsWith ns hs

/-- `String.prototype.includes`: the needle occurs contiguously somewhere
in the haystack. -/
def occursIn (needle : List Char) : List Char → Bool
  | [] => needle.isEmpty
  | h :: hs => leadsWith needle (h :: hs) || occursIn needle hs

/-- Options of the bundled search tool (search-canonical.ts), as produced
by its argument parser. -/
structure ToolOptions where
  url : Option String
  type : Option String
  kind : Option String
  version : Option String
  package : Option String
  limit : Option Nat
  deriving DecidableEq

/-- The `searchParams` object built by the tool's `main`
(search-canonical.ts lines 389–407): the `type`/`kind`/`version` options
are copied under truthiness guards, the `package` option is resolved to a
registered package by name (per §4.5 `manager.packages()` returns the
cache's package records; in this model their name lives under `id`); an
unknown package name makes the tool exit, modelled as `none`.  The `url`
option takes no part. -/
def buildParams (c : Cache) (o : ToolOptions) : Option SearchCriteria :=
  let base : SearchCriteria :=
    { type := truthy o.type
      kind := truthy o.kind
      version := truthy o.version
      package := none }
  match truthy o.package with
  | none => some base
  | some n =>
    match (c.packages.map Prod.snd).find? (fun p => p.id.name = some n) with
    | some p => some { base with package := some p }
    | none => none

/-- The tool's post-search URL filter (search-canonical.ts lines 413–418):
when a `url` option is supplied (truthy), keep the entries whose `url`
field, lowercased, contains the lowercased option as a substring; optional
chaining makes an absent `url` field fail the predicate. -/
def applyUrlFilter (o : ToolOptions) (rs : List IndexEntry) : List IndexEntry :=
  match truthy o.url with
  | none => rs
  | some u =>
    rs.filter (fun e =>
      match e.url with
      | none => false
      | some s => occursIn (lowerStr u).toList (lowerStr s).toList)

/-- The tool's result-limit step (search-canonical.ts lines 421–423). -/
def applyLimit (o : ToolOptions) (rs : List IndexEntry) : List IndexEntry :=
  match o.limit with
  | none => rs
  | some n => if 0 < n then rs.take n else rs

/-- The search section of the tool's `main` (search-canonical.ts lines
389–423): build the structured criteria, run the cache search, post-filter
by URL, then limit; `none` models the tool exiting on an unknown package
name. -/
def toolSearch (c : Cache) (o : ToolOptions) : Option (List IndexEntry) :=
  match buildParams c o with
  | none => none
  | some sp => some (applyLimit o (applyUrlFilter o (search c sp)))

/-! Concrete fixtures used by witnesses and counterexamples. -/

def pj1 : PackageJson :=
  ⟨some "p1.core", some "1.0.0", some "http://example.org/p1", some ["4.0.1"]⟩

def info1 : PackageInfo := mkInfo "p1" pj1

def d1 : IndexDescriptor :=
  ⟨some "http://example.org/p1/A", some "X", some "resource", some "1.0.0"⟩

def d2 : IndexDescriptor :=
  ⟨some "http://example.org/p1/B", some "Y", some "resource", none⟩

/-- Filesystem with a valid package `p1` and a package `p2` whose
`package.json` does not parse. -/
def exFS1 : FS := fun p =>
  if p = "p1/package.json" then .file (.manifest pj1)
  else if p = "p1/.index.json" then .file (.indexFile [d1, d2])
  else if p = "p2/package.json" then .file .junk
  else .absent

def entry1 : IndexEntry :=
  ⟨some "http://example.org/p1/A", some "X", some "resource", some "1.0.0", some info1⟩

def entry2 : IndexEntry :=
  ⟨some "http://example.org/p1/B", some "Y", some "resource", none, some info1⟩

/-- The cache expected after scanning `p1` and `p2` of `exFS1` in either
order: exactly `p1`'s record and `p1`'s two entries. -/
def exCache1 : Cache :=
  { packages := [(some "p1.core", info1)], entries := [entry1, entry2] }

/-! Helper lemmas about the cache operations and the scanner. -/

theorem getPkg_setPkg_self (ps : List (Option String × PackageInfo))
    (n : Option String) (i : PackageInfo) : getPkg (setPkg ps n i) n = some i := by
  induction ps with
  | nil => simp [setPkg, getPkg]
  | cons kv rest ih =>
    obtain ⟨k, v⟩ := kv
    by_cases h : k = n
    · simp [setPkg, getPkg, h]
    · simp [setPkg, getPkg, h, ih]

theorem processIndexE_out_packages (fs : FS) (d : String) (pj : PackageJson)
    (c : Cache) : (outCache (processIndexE fs d pj c)).packages = c.packages := by
  unfold processIndexE outCache
  cases readFile fs (pjoin d ".index.json") with
  | error e => rfl
  | ok content => cases content <;> rfl

theorem processIndexE_error_eq (fs : FS) (d : String) (pj : PackageJson)
    (c c' : Cache) (h : processIndexE fs d pj c = .error c') : c' = c := by
  unfold processIndexE at h
  cases hr : readFile fs (pjoin d ".index.json") with
  | error e => rw [hr] at h; cases h; rfl
  | ok content => rw [hr] at h; cases content <;> simp_all

theorem processIndexE_ok_packages (fs : FS) (d : String) (pj : PackageJson)
    (c c' : Cache) (h : processIndexE fs d pj c = .ok c') : c'.packages = c.packages := by
  have hh := processIndexE_out_packages fs d pj c
  rw [h] at hh
  exact hh

theorem indexPhase_packages (fs : FS) (p : String) (pj : PackageJson)
    (c1 : Cache) : (indexPhase fs p pj c1).packages = c1.packages := by
  unfold indexPhase
  cases hr : processIndexE fs p pj c1 with
  | error c => exact congrArg Cache.packages (processIndexE_error_eq fs p pj c1 c hr)
  | ok c2 =>
    have h2 : c2.packages = c1.packages := processIndexE_ok_packages fs p pj c1 c2 hr
    by_cases hex : fileExists fs (pjoin (pjoin p "examples") ".index.json") = true
    · simp only [hex, if_true]
      rw [processIndexE_out_packages]
      exact h2
    · simp only [hex, if_false]
      exact h2

theorem indexPhase_eq_out (fs : FS) (p : String) (pj : PackageJson) (c1 : Cache) :
    indexPhase fs p pj c1 = outCache (indexPhaseE fs p pj c1) := by
  unfold indexPhase indexPhaseE
  cases processIndexE fs p pj c1 with
  | error c => rfl
  | ok c2 =>
    by_cases hex : fileExists fs (pjoin (pjoin p "examples") ".index.json") = true
    · simp only [hex, if_true]
    · simp only [hex, if_false]
      rfl

theorem scanPackage_eq_out (fs : FS) (p : String) (c : Cache) :
    scanPackage fs p c = outCache (tryScanBody fs p c) := by
  unfold scanPackage tryScanBody
  cases readFile fs (pjoin p "package.json") with
  | error e => rfl
  | ok content =>
    cases content with
    | junk => rfl
    | nullVal => rfl
    | manifest pj => exact indexPhase_eq_out fs p pj _
    | indexFile descs => exact indexPhase_eq_out fs p ⟨none, none, none, none⟩ _

theorem getPkg_indexPhase_insert (fs : FS) (p : String) (pj : PackageJson) (c : Cache) :
    getPkg (indexPhase fs p pj (insertPkg c pj.name (mkInfo p pj))).packages pj.name =
      some (mkInfo p pj) := by
  rw [indexPhase_packages]
  exact getPkg_setPkg_self c.packages pj.name (mkInfo p pj)

theorem getPkg_scan (fs : FS) (p : String) (c : Cache) (content : ParsedFile)
    (pj : PackageJson) (h1 : readFile fs (pjoin p "package.json") = .ok content)
    (h2 : manifestFields content = .ok pj) :
    getPkg (scanPackage fs p c).packages pj.name = some (mkInfo p pj) := by
  unfold scanPackage
  rw [h1]
  cases content with
  | junk => cases h2
  | nullVal => cases h2
  | manifest pj' =>
    injection h2 with h2e
    subst h2e
    exact getPkg_indexPhase_insert fs p pj' c
  | indexFile descs =>
    injection h2 with h2e
    subst h2e
    exact getPkg_indexPhase_insert fs p ⟨none, none, none, none⟩ c

/-- C1: for a package directory whose `package.json` is missing or
unparsable, `scanPackage` leaves the cache unchanged and raises nothing;
consequently scanning valid `p1` and corrupt `p2` of `exFS1` in either
order yields exactly `p1`'s record and `p1`'s entries. -/
theorem claim1_corrupt_package_leaves_cache_unchanged :
    (∀ (fs : FS) (p : String) (c : Cache),
        readFile fs (pjoin p "package.json") = .error () → scanPackage fs p c = c)
    ∧ (∀ (fs : FS) (p : String) (c : Cache) (content : ParsedFile),
        readFile fs (pjoin p "package.json") = .ok content →
        manifestFields content = .error () → scanPackage fs p c = c)
    ∧ scanPackage exFS1 "p2" (scanPackage exFS1 "p1" emptyCache) = exCache1
    ∧ scanPackage exFS1 "p1" (scanPackage exFS1 "p2" emptyCache) = exCache1 := by
  refine ⟨?_, ?_, ?_, ?_⟩
  · intro fs p c h
    unfold scanPackage
    rw [h]
  · intro fs p c content h1 h2
    unfold scanPackage
    rw [h1]
    cases content with
    | junk => rfl
    | nullVal => rfl
    | manifest pj => simp [manifestFields] at h2
    | indexFile descs => simp [manifestFields] at h2
  · decide
  · decide

/-- Witness for C1 at the corrupt package of `exFS1`. -/
theorem claim1_witness : scanPackage exFS1 "p2" emptyCache = emptyCache :=
  claim1_corrupt_package_leaves_cache_unchanged.2.1 exFS1 "p2" emptyCache
    ParsedFile.junk rfl rfl

/-- C2: `scanPackage` never raises: it equals its own `try` body with the
empty catch applied, so any failure of any step is swallowed and the
result is the cache as mutated so far. -/
theorem claim2_scan_never_raises :
    (∀ (fs : FS) (p : String) (c : Cache),
        scanPackage fs p c = outCache (tryScanBody fs p c))
    ∧ (∀ (fs : FS) (p : String) (c c' : Cache),
        tryScanBody fs p c = .error c' → scanPackage fs p c = c') := by
  refine ⟨fun fs p c => scanPackage_eq_out fs p c, ?_⟩
  intro fs p c c' h
  rw [scanPackage_eq_out, h]
  rfl

/-- Witness for C2: scanning the corrupt package of `exFS1` on a populated
cache swallows the raise and returns that cache. -/
theorem claim2_witness : scanPackage exFS1 "p2" exCache1 = exCache1 :=
  claim2_scan_never_raises.2 exFS1 "p2" exCache1 exCache1 rfl

/-- C3: a successfully parsed manifest declaring name `n` and version `v`
ends with `cache.packages[n]` holding exactly the `PackageInfo` built from
the manifest and the scan path, overwriting any previous record (the
starting cache is arbitrary). -/
theorem claim3_valid_manifest_registered :
    ∀ (fs : FS) (p : String) (c : Cache) (content : ParsedFile)
      (pj : PackageJson) (n v : String),
      readFile fs (pjoin p "package.json") = .ok content →
      manifestFields content = .ok pj →
      pj.name = some n → pj.version = some v →
      getPkg (scanPackage fs p c).packages (some n) =
        some { id := { name := some n, version := some v }, path := p,
               canonical := pj.canonical, fhirVersions := pj.fhirVersions } := by
  intro fs p c content pj n v h1 h2 hn hv
  have h := getPkg_scan fs p c content pj h1 h2
  rw [hn] at h
  rw [h]
  simp [mkInfo, hn, hv]

/-- Witness for C3 at the valid package of `exFS1`, starting from a cache
already holding a record under the same name (exercising the overwrite). -/
theorem claim3_witness :
    getPkg (scanPackage exFS1 "p1"
        { packages := [(some "p1.core", mkInfo "elsewhere" pj1)], entries := [] }).packages
        (some "p1.core") =
      some { id := { name := some "p1.core", version := some "1.0.0" },
             path := "p1", canonical := pj1.canonical,
             fhirVersions := pj1.fhirVersions } :=
  claim3_valid_manifest_registered exFS1 "p1"
    { packages := [(some "p1.core", mkInfo "elsewhere" pj1)], entries := [] }
    (ParsedFile.manifest pj1) pj1 "p1.core" "1.0.0" rfl rfl rfl rfl

def pj8 : PackageJson := ⟨some "p8.pkg", some "0.1.0", none, none⟩

/-- Filesystem with a parsable manifest but a malformed root
`.index.json`, so the index phase raises after the registration. -/
def exFS8 : FS := fun p =>
  if p = "p8/package.json" then .file (.manifest pj8)
  else if p = "p8/.index.json" then .file .junk
  else .absent

/-- C8: when the manifest was read and parsed but a later step of the
`try` body raises, the result is the cache as mutated at the raise point,
and the `PackageInfo` inserted before the raise is still registered under
the manifest's name — no rollback. -/
theorem claim8_registration_not_rolled_back :
    ∀ (fs : FS) (p : String) (c : Cache) (content : ParsedFile)
      (pj : PackageJson) (c' : Cache),
      readFile fs (pjoin p "package.json") = .ok content →
      manifestFields content = .ok pj →
      tryScanBody fs p c = .error c' →
      scanPackage fs p c = c' ∧
        getPkg (scanPackage fs p c).packages pj.name = some (mkInfo p pj) := by
  intro fs p c content pj c' h1 h2 herr
  constructor
  · rw [scanPackage_eq_out, herr]
    rfl
  · exact getPkg_scan fs p c content pj h1 h2

/-- Witness for C8 at `exFS8`: the root index raises, the package record
stays registered. -/
theorem claim8_witness :
    scanPackage exFS8 "p8" emptyCache =
        { packages := [(some "p8.pkg", mkInfo "p8" pj8)], entries := [] } ∧
      getPkg (scanPackage exFS8 "p8" emptyCache).packages (some "p8.pkg") =
        some (mkInfo "p8" pj8) :=
  claim8_registration_not_rolled_back exFS8 "p8" emptyCache
    (ParsedFile.manifest pj8) pj8
    { packages := [(some "p8.pkg", mkInfo "p8" pj8)], entries := [] } rfl rfl rfl

/-- Filesystem whose `package.json` holds the parsable JSON text `null`. -/
def nullFS : FS := fun p =>
  if p = "p9/package.json" then .file .nullVal else .absent

/-- C9 counterexample: a `package.json` holding the JSON value `null`
parses successfully and lacks the `name` field, yet no `PackageInfo` is
inserted (the property access throws and the scan aborts), refuting the
claim that every successfully parsed manifest shape is registered. -/
theorem claim9_counterexample :
    readFile nullFS (pjoin "p9" "package.json") = .ok ParsedFile.nullVal
    ∧ scanPackage nullFS "p9" emptyCache = emptyCache
    ∧ getPkg (scanPackage nullFS "p9" emptyCache).packages none = none := by
  refine ⟨rfl, by decide, by decide⟩

/-- C9 (amended): `scanPackage` performs no validation of the parsed
manifest: for every `package.json` parsing to a non-null JSON value, a
`PackageInfo` carrying whatever fields the value yields (absent ones
included) is inserted keyed by the possibly-absent name and no error is
raised; for the JSON value `null` the field access throws, the error is
swallowed, and nothing is inserted. -/
theorem claim9_no_validation :
    (∀ (fs : FS) (p : String) (c : Cache) (content : ParsedFile)
       (pj : PackageJson),
       readFile fs (pjoin p "package.json") = .ok content →
       manifestFields content = .ok pj →
       getPkg (scanPackage fs p c).packages pj.name = some (mkInfo p pj))
    ∧ (∀ (fs : FS) (p : String) (c : Cache),
       readFile fs (pjoin p "package.json") = .ok ParsedFile.nullVal →
       scanPackage fs p c = c) := by
  refine ⟨fun fs p c content pj h1 h2 => getPkg_scan fs p c content pj h1 h2, ?_⟩
  intro fs p c h
  unfold scanPackage
  rw [h]
  rfl

/-- Filesystem with a manifest that parses but declares neither name nor
version. -/
def bareFS : FS := fun p =>
  if p = "pb/package.json" then .file (.manifest ⟨none, none, none, none⟩)
  else .absent

/-- Witness for C9 at a manifest lacking both name and version: the bare
record is registered under the absent name. -/
theorem claim9_witness :
    getPkg (scanPackage bareFS "pb" emptyCache).packages none =
      some (mkInfo "pb" ⟨none, none, none, none⟩) :=
  claim9_no_validation.1 bareFS "pb" emptyCache
    (ParsedFile.manifest ⟨none, none, none, none⟩) ⟨none, none, none, none⟩ rfl rfl

theorem indexPhaseT_fst (fs : FS) (p : String) (pj : PackageJson) (c1 : Cache) :
    (indexPhaseT fs p pj c1).1 = indexPhase fs p pj c1 := by
  unfold indexPhaseT indexPhase
  cases processIndexE fs p pj c1 with
  | error c => rfl
  | ok c2 =>
    by_cases hex : fileExists fs (pjoin (pjoin p "examples") ".index.json") = true
    · simp [hex]
    · rw [Bool.not_eq_true] at hex
      simp [hex]

theorem scanPackageT_fst (fs : FS) (p : String) (c : Cache) :
    (scanPackageT fs p c).1 = scanPackage fs p c := by
  unfold scanPackageT scanPackage
  cases readFile fs (pjoin p "package.json") with
  | error e => rfl
  | ok content =>
    cases content with
    | junk => rfl
    | nullVal => rfl
    | manifest pj => exact indexPhaseT_fst fs p pj _
    | indexFile descs => exact indexPhaseT_fst fs p ⟨none, none, none, none⟩ _

theorem indexPhaseT_flag (fs : FS) (p : String) (pj : PackageJson) (c1 c2 : Cache)
    (hok : processIndexE fs p pj c1 = .ok c2) :
    (indexPhaseT fs p pj c1).2 =
      fileExists fs (pjoin (pjoin p "examples") ".index.json") := by
  unfold indexPhaseT
  rw [hok]
  by_cases hex : fileExists fs (pjoin (pjoin p "examples") ".index.json") = true
  · simp [hex]
  · rw [Bool.not_eq_true] at hex
    simp [hex]

def pj5 : PackageJson := ⟨some "p5.pkg", some "2.0.0", none, none⟩

/-- Filesystem with a parsable manifest, a malformed root index, and a
valid `examples` index. -/
def exFS5cex : FS := fun p =>
  if p = "p5/package.json" then .file (.manifest pj5)
  else if p = "p5/.index.json" then .file .junk
  else if p = "p5/examples/.index.json" then .file (.indexFile [d1])
  else .absent

/-- C5 counterexample: the manifest parses and `examples/.index.json`
exists, yet the Index Processor is never invoked on the `examples`
sub-directory because processing of the package root's index raised
first — the claimed "if and only if" fails in this direction. -/
theorem claim5_counterexample :
    readFile exFS5cex (pjoin "p5" "package.json") = .ok (ParsedFile.manifest pj5)
    ∧ fileExists exFS5cex (pjoin (pjoin "p5" "examples") ".index.json") = true
    ∧ (scanPackageT exFS5cex "p5" emptyCache).2 = false := by
  refine ⟨rfl, by decide, by decide⟩

def pj5b : PackageJson := ⟨some "p5b.pkg", some "1.2.3", none, none⟩

def d3 : IndexDescriptor := ⟨some "http://example.org/ex/1", some "Z", some "example", none⟩

def d4 : IndexDescriptor := ⟨some "http://example.org/ex/2", some "Z", some "example", none⟩

def d5 : IndexDescriptor := ⟨some "http://example.org/ex/3", some "Z", some "example", none⟩

/-- Filesystem with a package whose root index holds 2 descriptors and
whose `examples` index holds 3. -/
def exFS5 : FS := fun p =>
  if p = "p5b/package.json" then .file (.manifest pj5b)
  else if p = "p5b/.index.json" then .file (.indexFile [d1, d2])
  else if p = "p5b/examples/.index.json" then .file (.indexFile [d3, d4, d5])
  else .absent

/-- The cache state after the successful root-index processing of
`exFS5`'s package. -/
def exC5mid : Cache :=
  outCache (processIndexE exFS5 "p5b" pj5b
    (insertPkg emptyCache pj5b.name (mkInfo "p5b" pj5b)))

/-- C5 (amended): for every package whose manifest parses and whose
root-index processing completes without raising, the Index Processor is
invoked on the `examples` sub-directory iff `examples/.index.json`
exists, with the same parent manifest; a package with a 2-entry root
index and a 3-entry examples index contributes exactly 5 entries, all
attributed to that one package. -/
theorem claim5_examples_iff_hidden_index :
    (∀ (fs : FS) (p : String) (c : Cache) (content : ParsedFile)
       (pj : PackageJson) (c2 : Cache),
       readFile fs (pjoin p "package.json") = .ok content →
       manifestFields content = .ok pj →
       processIndexE fs p pj (insertPkg c pj.name (mkInfo p pj)) = .ok c2 →
       (scanPackageT fs p c).2 =
         fileExists fs (pjoin (pjoin p "examples") ".index.json"))
    ∧ ((scanPackage exFS5 "p5b" emptyCache).entries.length = 5
       ∧ ∀ e ∈ (scanPackage exFS5 "p5b" emptyCache).entries,
           e.package = some (mkInfo "p5b" pj5b)) := by
  refine ⟨?_, by decide, by decide⟩
  intro fs p c content pj c2 h1 h2 hok
  unfold scanPackageT
  rw [h1]
  cases content with
  | junk => cases h2
  | nullVal => cases h2
  | manifest pj' =>
    injection h2 with h2e
    subst h2e
    exact indexPhaseT_flag fs p pj' _ c2 hok
  | indexFile descs =>
    injection h2 with h2e
    subst h2e
    exact indexPhaseT_flag fs p ⟨none, none, none, none⟩ _ c2 hok

/-- Witness for C5 at `exFS5`: with the root index processed successfully,
the examples-invocation flag equals the probe of `examples/.index.json`. -/
theorem claim5_witness :
    (scanPackageT exFS5 "p5b" emptyCache).2 =
      fileExists exFS5 (pjoin (pjoin "p5b" "examples") ".index.json") :=
  claim5_examples_iff_hidden_index.1 exFS5 "p5b" emptyCache
    (ParsedFile.manifest pj5b) pj5b exC5mid rfl rfl rfl

theorem entryMatches_true_iff (crit : SearchCriteria) (e : IndexEntry) :
    entryMatches crit e = true ↔
      ((∀ t, crit.type = some t → e.type = some t) ∧
       (∀ k, crit.kind = some k → e.kind = some k) ∧
       (∀ v, crit.version = some v → e.version = some v) ∧
       (∀ pk, crit.package = some pk →
          ∃ q, e.package = some q ∧ q.id.name = pk.id.name)) := by
  obtain ⟨t, k, v, pk⟩ := crit
  obtain ⟨eu, et, ek, ev, ep⟩ := e
  simp only [entryMatches]
  cases t <;> cases k <;> cases v <;> cases pk <;> cases ep <;> simp [and_assoc]

def ent1 : IndexEntry := ⟨some "A", some "X", some "resource", none, none⟩

def ent2 : IndexEntry := ⟨some "B", some "Y", some "resource", none, none⟩

def ent3 : IndexEntry := ⟨some "A", some "X", some "logical", none, none⟩

def cache4 : Cache := ⟨[], [ent1, ent2, ent3]⟩

/-- C4: `search` keeps exactly the entries satisfying every supplied
criterion (omitted criteria constrain nothing), in the cache's ingestion
order; on the three-entry example, `search {type := "X"}` returns the
first and third entries in that order. -/
theorem claim4_search_filters_in_order :
    (∀ (c : Cache) (crit : SearchCriteria), List.Sublist (search c crit) c.entries)
    ∧ (∀ (c : Cache) (crit : SearchCriteria) (e : IndexEntry),
        e ∈ search c crit ↔
          (e ∈ c.entries ∧
           (∀ t, crit.type = some t → e.type = some t) ∧
           (∀ k, crit.kind = some k → e.kind = some k) ∧
           (∀ v, crit.version = some v → e.version = some v) ∧
           (∀ pk, crit.package = some pk →
              ∃ q, e.package = some q ∧ q.id.name = pk.id.name)))
    ∧ search cache4 ⟨some "X", none, none, none⟩ = [ent1, ent3] := by
  refine ⟨?_, ?_, by decide⟩
  · intro c crit
    exact List.filter_sublist c.entries
  · intro c crit e
    simp only [search, List.mem_filter, entryMatches_true_iff]

/-- Filesystem for the probe examples: a package with a hidden index, a
directory with only a non-hidden `index.json`, and nothing else. -/
def exFS6 : FS := fun p =>
  if p = "fhirpkg/.index.json" then .file (.indexFile [])
  else if p = "plain/index.json" then .file .junk
  else if p = "plain/package.json" then .file (.manifest pj1)
  else .absent

/-- C6: `isFhirPackage` is true exactly when a hidden `.index.json`
exists (is accessible) directly under the path, and false in every other
condition — a missing directory, a directory with only a non-hidden
`index.json`, an empty path — and, being total, never throws. -/
theorem claim6_isFhirPackage_iff_hidden_index :
    (∀ (fs : FS) (p : String),
        isFhirPackage fs p = true ↔
          isAccessible (fs (pjoin p ".index.json")) = true)
    ∧ isFhirPackage exFS6 "fhirpkg" = true
    ∧ isFhirPackage exFS6 "plain" = false
    ∧ isFhirPackage exFS6 "missing" = false
    ∧ isFhirPackage exFS6 "" = false := by
  refine ⟨?_, by decide, by decide, by decide, by decide⟩
  intro fs p
  unfold isFhirPackage fileExists access isAccessible
  cases fs (pjoin p ".index.json") <;> simp

/-- Filesystem exercising every file state `fileExists` distinguishes. -/
def deniedFS : FS := fun p =>
  if p = "/root/cannot-access" then .denied
  else if p = "somedir" then .dir
  else if p = "some.txt" then .file .junk
  else .absent

/-- C7: `fileExists` is total (never throws), returns true exactly on
accessible paths — files and directories alike — and false on every
access error: both a missing path and a permission denial report "does
not exist". -/
theorem claim7_fileExists_never_throws :
    (∀ (fs : FS) (p : String), fileExists fs p = isAccessible (fs p))
    ∧ (∀ (fs : FS) (p : String) (content : ParsedFile),
        fs p = FileState.file content → fileExists fs p = true)
    ∧ (∀ (fs : FS) (p : String), fs p = FileState.dir → fileExists fs p = true)
    ∧ (∀ (fs : FS) (p : String), fs p = FileState.denied → fileExists fs p = false)
    ∧ (∀ (fs : FS) (p : String), fs p = FileState.absent → fileExists fs p = false) := by
  refine ⟨?_, ?_, ?_, ?_, ?_⟩
  · intro fs p
    unfold fileExists access isAccessible
    cases fs p <;> rfl
  · intro fs p content h
    unfold fileExists access
    rw [h]
  · intro fs p h
    unfold fileExists access
    rw [h]
  · intro fs p h
    unfold fileExists access
    rw [h]
  · intro fs p h
    unfold fileExists access
    rw [h]

/-- Witness for C7 at a permission-denied path: treated as "does not
exist". -/
theorem claim7_witness : fileExists deniedFS "/root/cannot-access" = false :=
  claim7_fileExists_never_throws.2.2.2.1 deniedFS "/root/cannot-access" rfl

/-- C10: in the bundled search tool, the `url` option is never part of the
structured criteria (`buildParams` is independent of it and
`SearchCriteria` has no url field); it acts as a post-search filter
keeping exactly the entries whose `url` field, lowercased, contains the
lowercased option, so any entry with an absent `url` field is excluded
whenever a url filter is supplied. -/
theorem claim10_url_is_post_filter :
    (∀ (c : Cache) (o : ToolOptions) (u : Option String),
        buildParams c { o with url := u } = buildParams c o)
    ∧ (∀ (o : ToolOptions) (rs : List IndexEntry) (u : String) (e : IndexEntry),
        truthy o.url = some u →
        (e ∈ applyUrlFilter o rs ↔
          e ∈ rs ∧ ∃ s, e.url = some s ∧
            occursIn (lowerStr u).toList (lowerStr s).toList = true))
    ∧ (∀ (o : ToolOptions) (rs : List IndexEntry) (e : IndexEntry),
        truthy o.url ≠ none → e ∈ applyUrlFilter o rs → e.url ≠ none) := by
  refine ⟨fun c o u => rfl, ?_, ?_⟩
  · intro o rs u e hu
    unfold applyUrlFilter
    rw [hu]
    rw [List.mem_filter]
    cases he : e.url <;> simp [he]
  · intro o rs e hne hmem
    cases ht : truthy o.url with
    | none => exact absurd ht hne
    | some u =>
      unfold applyUrlFilter at hmem
      rw [ht] at hmem
      replace hmem : e ∈ rs.filter (fun e =>
          match e.url with
          | none => false
          | some s => occursIn (lowerStr u).toList (lowerStr s).toList) := hmem
      rw [List.mem_filter] at hmem
      cases he : e.url with
      | none =>
        rw [he] at hmem
        exact absurd hmem.2 (by simp)
      | some s => simp [he]

def entU : IndexEntry :=
  ⟨some "http://hl7.org/fhir/StructureDefinition/Patient",
   some "StructureDefinition", some "resource", none, none⟩

def entNoUrl : IndexEntry := ⟨none, some "X", some "resource", none, none⟩

def optU : ToolOptions := ⟨some "PATIENT", none, none, none, none, none⟩

/-- Witness for C10: an uppercase url option matches a lowercase entry url
by case-insensitive substring, through the theorem's characterization. -/
theorem claim10_witness : entU ∈ applyUrlFilter optU [entU, entNoUrl] :=
  (claim10_url_is_post_filter.2.1 optU [entU, entNoUrl] "PATIENT" entU rfl).mpr
    ⟨by decide, "http://hl7.org/fhir/StructureDefinition/Patient", rfl, by decide⟩
